import Mathlib

/-!
Verification of the snapshot/incremental reconciliation core of the
hft-book repository.

The development shallowly embeds the Rust snippets of the book:

* `is_newer` — the 32-bit wraparound sequence comparison
  (incremental/snapshot chapter, §4.3 of the markdown source);
* `MarketDataEngine` with `on_incremental`, `on_snapshot`,
  `replay_buffer` and `apply_incremental` — the buffer-then-replay
  state machine of the same chapter;
* `SpscRingBuffer` with `new`, `try_push` and `try_pop` — the
  single-producer/single-consumer ring buffer chapter;
* `SeqLock` and `DoubleBufferedOrderBook` — the signals chapter.

Machine integers are modelled as `Nat` with explicit `% 2^w` wrapping
where the source relies on wrapping arithmetic (`u32` in `is_newer`,
`usize` in the ring buffer cursors).  The `u64` sequence numbers of the
engine are modelled as unbounded naturals: the engine code uses plain
(non-wrapping) `+ 1` on them, and the book states that 64-bit sequence
counters never wrap in practice.
-/

namespace HftBook

/-! ### Gap detection with 32-bit wraparound

Source (incremental/snapshot chapter, §4.3):

```rust
fn is_newer(a: u32, b: u32) -> bool {
    let diff = a.wrapping_sub(b);
    diff < 0x8000_0000 && diff != 0
}
```
-/

/-- The modulus of `u32` arithmetic, `2 ^ 32`. -/
def u32Mod : Nat := 4294967296

/-- Wrapping subtraction `a.wrapping_sub(b)` on `u32` values, with the operands reduced into
the `u32` range first. -/
def u32_wrapping_sub (a b : Nat) : Nat :=
  (a % u32Mod + (u32Mod - b % u32Mod)) % u32Mod

/-- Source `fn is_newer(a: u32, b: u32) -> bool`: wrapping difference below
`0x8000_0000` and nonzero. -/
def is_newer (a b : Nat) : Bool :=
  decide (u32_wrapping_sub a b < 2147483648) && decide (u32_wrapping_sub a b ≠ 0)

/-! ### The snapshot/incremental engine

Source (incremental/snapshot chapter, §3— `MarketDataEngine`).  The
demo `OrderBook` of that chapter holds only `last_applied_seq`
(`// ... L2/L3 data structures` is a comment); its helper methods are
literal no-ops:

```rust
struct OrderBook { last_applied_seq: u64 }
impl OrderBook { fn clear(&mut self) {} fn add(&mut self, _o: Order) {} }
```

`replay_buffer` prints its `dropped_count` / `applied_count`
statistics; the model returns them so they are observable. -/

/-- Source `enum State { WaitingForSnapshot, Replaying, Realtime }`. -/
inductive State where
  | WaitingForSnapshot
  | Replaying
  | Realtime
  deriving DecidableEq, Repr

/-- Source `pub struct IncrementalMsg { pub seq: u64, pub data: Vec<u8> }`. -/
structure IncrementalMsg where
  seq : Nat
  data : List Nat
  deriving DecidableEq, Repr

/-- Source `struct Order;` — the demo order type has no fields. -/
inductive Order where
  | mk
  deriving DecidableEq, Repr

/-- Source `struct OrderBook { last_applied_seq: u64 }`. -/
structure OrderBook where
  last_applied_seq : Nat
  deriving DecidableEq, Repr

/-- Source `fn clear(&mut self) {}` — a literal no-op. -/
def OrderBook.clear (b : OrderBook) : OrderBook := b

/-- Source `fn add(&mut self, _o: Order) {}` — a literal no-op. -/
def OrderBook.add (b : OrderBook) (_o : Order) : OrderBook := b

/-- Source `pub struct MarketDataEngine { state, buffer, book }`. -/
structure MarketDataEngine where
  state : State
  buffer : List IncrementalMsg
  book : OrderBook
  deriving DecidableEq, Repr

/-- Constructor `MarketDataEngine::new()`. -/
def MarketDataEngine.new : MarketDataEngine :=
  { state := State.WaitingForSnapshot, buffer := [], book := { last_applied_seq := 0 } }

/-- Source `fn apply_incremental(&mut self, msg: IncrementalMsg)`: strict
continuity check.  On `msg.seq != last_applied_seq + 1` the engine
resets to `WaitingForSnapshot` and clears the buffer (the
`send_snapshot_request()` call is commented out in the source, so no
request is issued); otherwise the cursor advances to `msg.seq`
(`self.book.update(msg)` is likewise commented out). -/
def apply_incremental (e : MarketDataEngine) (msg : IncrementalMsg) : MarketDataEngine :=
  if msg.seq ≠ e.book.last_applied_seq + 1 then
    { e with state := State.WaitingForSnapshot, buffer := [] }
  else
    { e with book := { e.book with last_applied_seq := msg.seq } }

/-- The `while let Some(msg) = self.buffer.pop_front()` loop of
`replay_buffer`, with the `snapshot_seq` captured at entry and the
running `(dropped_count, applied_count)` accumulators.  The loop
terminates because each iteration pops one message and
`apply_incremental` can only shrink the buffer further (it clears it on
a gap). -/
def replay_loop (snapshot_seq : Nat) (e : MarketDataEngine) (dropped applied : Nat) :
    MarketDataEngine × Nat × Nat :=
  match h : e.buffer with
  | [] => (e, dropped, applied)
  | msg :: rest =>
    if msg.seq ≤ snapshot_seq then
      replay_loop snapshot_seq { e with buffer := rest } (dropped + 1) applied
    else
      replay_loop snapshot_seq (apply_incremental { e with buffer := rest } msg) dropped (applied + 1)
termination_by e.buffer.length
decreasing_by
  · simp [h]
  · simp only [apply_incremental]
    split <;> simp [h]

/-- Source `fn replay_buffer(&mut self)`: drain the buffer against the cursor
captured at entry, then set the state to `Realtime` unconditionally.
Returns `(engine, dropped_count, applied_count)`; the counts are
printed by the source. -/
def replay_buffer (e : MarketDataEngine) : MarketDataEngine × Nat × Nat :=
  let snapshot_seq := e.book.last_applied_seq
  match replay_loop snapshot_seq e 0 0 with
  | (e2, dropped, applied) => ({ e2 with state := State.Realtime }, dropped, applied)

/-- Source `pub fn on_snapshot(&mut self, snapshot_seq: u64, orders: Vec<Order>)`:
clear the book, add the snapshot orders, overwrite the cursor with
`snapshot_seq`, enter `Replaying` and run `replay_buffer`.  There is no
staleness or phase check in the source. -/
def on_snapshot (e : MarketDataEngine) (snapshot_seq : Nat) (orders : List Order) :
    MarketDataEngine × Nat × Nat :=
  let book1 := orders.foldl OrderBook.add (OrderBook.clear e.book)
  let book2 := { book1 with last_applied_seq := snapshot_seq }
  replay_buffer { e with book := book2, state := State.Replaying }

/-- Source `pub fn on_incremental(&mut self, msg: IncrementalMsg)`: buffer in
`WaitingForSnapshot` and `Replaying`, apply directly in `Realtime`. -/
def on_incremental (e : MarketDataEngine) (msg : IncrementalMsg) : MarketDataEngine :=
  match e.state with
  | State.WaitingForSnapshot => { e with buffer := e.buffer ++ [msg] }
  | State.Realtime => apply_incremental e msg
  | State.Replaying => { e with buffer := e.buffer ++ [msg] }

/-! ### The SPSC ring buffer

Source (ring buffer chapter).  The `head`/`tail` cursors are `usize`
and all cursor arithmetic is explicitly wrapping
(`wrapping_add`/`wrapping_sub`), indices are formed with `& mask`:

```rust
pub fn try_push(&self, value: T) -> Result<(), T> {
    let head = self.head.load(Ordering::Relaxed);
    let tail = self.tail.load(Ordering::Acquire);
    if head.wrapping_sub(tail) >= self.capacity { return Err(value); }
    let index = head & self.mask;
    unsafe { ... write value ... }
    self.head.store(head.wrapping_add(1), Ordering::Release);
    Ok(())
}
pub fn try_pop(&self) -> Option<T> {
    let tail = self.tail.load(Ordering::Relaxed);
    let head = self.head.load(Ordering::Acquire);
    if tail == head { return None; }
    let index = tail & self.mask;
    let value = unsafe { ... read ... };
    self.tail.store(tail.wrapping_add(1), Ordering::Release);
    Some(value)
}
```

The model is sequential: the two atomic cursors become plain fields and
each operation returns the successor state together with its result. -/

/-- The modulus of `usize` arithmetic on a 64-bit target, `2 ^ 64`. -/
def usizeSize : Nat := 18446744073709551616

/-- Wrapping subtraction `a.wrapping_sub(b)` on `usize` values. -/
def usize_wrapping_sub (a b : Nat) : Nat :=
  (a % usizeSize + (usizeSize - b % usizeSize)) % usizeSize

/-- Wrapping addition `a.wrapping_add(b)` on `usize` values. -/
def usize_wrapping_add (a b : Nat) : Nat :=
  (a + b) % usizeSize

/-- Library predicate `usize::is_power_of_two`, modelled by its library specification:
`n` has exactly one set bit, i.e. `n = 2 ^ k` for some `k`. -/
def is_power_of_two : Nat → Bool
  | 0 => false
  | 1 => true
  | n + 2 => decide ((n + 2) % 2 = 0) && is_power_of_two ((n + 2) / 2)
termination_by n => n
decreasing_by
  omega

/-- Source `pub struct SpscRingBuffer<T>` (padding fields omitted: they carry
no data). -/
structure SpscRingBuffer (T : Type) where
  buffer : List T
  capacity : Nat
  mask : Nat
  head : Nat
  tail : Nat
  deriving DecidableEq, Repr

/-- Constructor `SpscRingBuffer::new(capacity)`: the
`assert!(capacity > 0 && capacity.is_power_of_two())` is modelled by
returning `none` (panic) when the assertion fails.  The slots are
pre-filled (with `T::default()` in the first listing,
`MaybeUninit::uninit()` in the second); the model fills them with
`default`. -/
def SpscRingBuffer.new (T : Type) [Inhabited T] (capacity : Nat) :
    Option (SpscRingBuffer T) :=
  if 0 < capacity ∧ is_power_of_two capacity = true then
    some { buffer := List.replicate capacity default, capacity := capacity,
           mask := capacity - 1, head := 0, tail := 0 }
  else
    none

/-- Producer `try_push`: full exactly when `head.wrapping_sub(tail) >= capacity`
(the error hands the value back and leaves the state untouched);
otherwise the slot at `head & mask` is overwritten and `head` advances
by one, wrapping. -/
def SpscRingBuffer.try_push (q : SpscRingBuffer T) (v : T) :
    SpscRingBuffer T × Except T Unit :=
  if q.capacity ≤ usize_wrapping_sub q.head q.tail then
    (q, Except.error v)
  else
    ({ q with buffer := q.buffer.set (q.head &&& q.mask) v,
              head := usize_wrapping_add q.head 1 }, Except.ok ())

/-- Consumer `try_pop`: empty exactly when `tail == head`; otherwise the slot at
`tail & mask` is read and `tail` advances by one, wrapping. -/
def SpscRingBuffer.try_pop [Inhabited T] (q : SpscRingBuffer T) :
    SpscRingBuffer T × Option T :=
  if q.tail = q.head then
    (q, none)
  else
    ({ q with tail := usize_wrapping_add q.tail 1 },
     some (q.buffer.getD (q.tail &&& q.mask) default))

/-- Number of elements currently pending in the channel:
`head.wrapping_sub(tail)`, exactly the quantity `try_push` compares
with the capacity. -/
def SpscRingBuffer.pendingCount (q : SpscRingBuffer T) : Nat :=
  usize_wrapping_sub q.head q.tail

/-- The slot holding the `i`-th oldest pending element: the buffer cell
at `(tail + i) & mask` (wrapping). -/
def SpscRingBuffer.slot [Inhabited T] (q : SpscRingBuffer T) (i : Nat) : T :=
  q.buffer.getD (usize_wrapping_add q.tail i &&& q.mask) default

/-- The pending elements of the channel, oldest first. -/
def SpscRingBuffer.pending [Inhabited T] (q : SpscRingBuffer T) : List T :=
  (List.range q.pendingCount).map q.slot

/-- Well-formedness, as established by `new` and preserved by the
operations: the capacity is a 64-bit-representable power of two, the
mask is `capacity - 1`, the backing store has `capacity` slots, the
cursors are `usize` values and at most `capacity` elements are
pending. -/
def SpscRingBuffer.wf (q : SpscRingBuffer T) : Prop :=
  (∃ k, k < 64 ∧ q.capacity = 2 ^ k) ∧ q.mask = q.capacity - 1 ∧
    q.buffer.length = q.capacity ∧ q.head < usizeSize ∧ q.tail < usizeSize ∧
    q.pendingCount ≤ q.capacity

/-- A concrete well-formed four-slot channel (capacity 4, mask 3,
head 2, tail 1: one element pending) used to witness the ring-buffer
theorem. -/
def demoChannel : SpscRingBuffer Nat := ⟨[10, 20, 30, 40], 4, 3, 2, 1⟩

/-! ### The SeqLock (signals chapter)

```rust
pub fn write(&self, f: impl FnOnce(&mut T)) {
    let seq = self.seq.load(Ordering::Relaxed);
    self.seq.store(seq + 1, Ordering::Release);
    f(unsafe { &mut *self.data.get() });
    self.seq.store(seq + 2, Ordering::Release);
}
pub fn read<R>(&self, f: impl FnOnce(&T) -> R) -> R {
    loop {
        let seq1 = self.seq.load(Ordering::Acquire);
        if seq1 & 1 != 0 { continue; }
        let result = f(unsafe { &*self.data.get() });
        let seq2 = self.seq.load(Ordering::Acquire);
        if seq1 == seq2 { return result; }
    }
}
```

`write` is modelled both by its final state and by the list of
intermediate states it passes through (after the first store, after the
mutator, after the second store); one iteration of the reader loop is
modelled as a function of the three values it observes. -/

/-- Source `pub struct SeqLock<T> { seq: AtomicUsize, data: UnsafeCell<T> }`. -/
structure SeqLock (T : Type) where
  seq : Nat
  data : T
  deriving DecidableEq, Repr

/-- Constructor `SeqLock::new(val)`. -/
def SeqLock.new (val : T) : SeqLock T :=
  { seq := 0, data := val }

/-- The final state of `SeqLock::write`: counter at `seq + 2`, data
mutated. -/
def SeqLock.write (l : SeqLock T) (f : T → T) : SeqLock T :=
  { seq := l.seq + 2, data := f l.data }

/-- The successive states `SeqLock::write` exposes: after
`store(seq + 1)`, after the mutator `f` has run (counter still odd),
and after `store(seq + 2)`. -/
def SeqLock.write_states (l : SeqLock T) (f : T → T) : List (SeqLock T) :=
  [{ seq := l.seq + 1, data := l.data },
   { seq := l.seq + 1, data := f l.data },
   { seq := l.seq + 2, data := f l.data }]

/-- One iteration of the `SeqLock::read` loop, as a function of the
counter value `seq1` it loads first, the data `d` it then reads, and
the counter value `seq2` it re-loads: `none` means the iteration
retries. -/
def SeqLock.read_attempt (g : T → R) (seq1 : Nat) (d : T) (seq2 : Nat) : Option R :=
  if seq1 &&& 1 ≠ 0 then none
  else if seq1 = seq2 then some (g d) else none

/-! ### The double-buffered book (signals chapter)

```rust
pub fn update(&mut self, update: MarketDataUpdate) {
    let back_index = 1 - self.current_index.load(Ordering::Relaxed);
    self.books[back_index].apply(update);
    self.current_index.store(back_index, Ordering::Release);
    // 4. 追赶 ... (re-application to the other copy is discussed in a
    // comment only; the code does not perform it)
}
```

The book type and its `apply` method live outside this snippet, so the
model is generic over them. -/

/-- Source `struct DoubleBufferedOrderBook { books: [Box<OrderBook>; 2], current_index: AtomicUsize }`. -/
structure DoubleBufferedOrderBook (B : Type) where
  books : B × B
  current_index : Nat
  deriving DecidableEq, Repr

/-- Accessor `self.books[i]` for `i ∈ {0, 1}`. -/
def DoubleBufferedOrderBook.getBook (d : DoubleBufferedOrderBook B) (i : Nat) : B :=
  if i = 0 then d.books.1 else d.books.2

/-- Writer `self.books[i] = b` for `i ∈ {0, 1}`. -/
def DoubleBufferedOrderBook.setBook (d : DoubleBufferedOrderBook B) (i : Nat) (b : B) :
    DoubleBufferedOrderBook B :=
  if i = 0 then { d with books := (b, d.books.2) }
  else { d with books := (d.books.1, b) }

/-- Source `DoubleBufferedOrderBook::update`: apply the update to the back
buffer and swap the visible index.  Nothing is re-applied to the other
copy. -/
def DoubleBufferedOrderBook.update (bookApply : B → U → B)
    (d : DoubleBufferedOrderBook B) (u : U) : DoubleBufferedOrderBook B :=
  let back_index := 1 - d.current_index
  let d1 := d.setBook back_index (bookApply (d.getBook back_index) u)
  { d1 with current_index := back_index }

/-- The copy a reader observes: `books[current_index]`. -/
def DoubleBufferedOrderBook.visible (d : DoubleBufferedOrderBook B) : B :=
  d.getBook d.current_index

/-- A concrete order-book instantiation for counterexamples: the book
is the list of updates applied to it, newest first. -/
def listBookApply (b : List Nat) (u : Nat) : List Nat := u :: b

/-! ## Helper lemmas -/

/-- Folding the no-op `OrderBook.add` over any order list leaves the
book unchanged. -/
theorem foldl_add_eq (orders : List Order) (b : OrderBook) :
    orders.foldl OrderBook.add b = b := by
  induction orders generalizing b with
  | nil => rfl
  | cons o os ih => simpa [OrderBook.add] using ih b

/-- Reading a freshly written slot. -/
theorem getD_set_self (l : List α) (i : Nat) (v d : α) (h : i < l.length) :
    (l.set i v).getD i d = v := by
  simp [List.getD_eq_getElem?_getD, List.getElem?_set_eq_of_lt _ h]

/-- Reading any other slot after a write. -/
theorem getD_set_ne (l : List α) (i j : Nat) (v d : α) (h : i ≠ j) :
    (l.set i v).getD j d = l.getD j d := by
  simp [List.getD_eq_getElem?_getD, List.getElem?_set_ne h]

/-- The executable `is_power_of_two` recognises exactly the powers of
two. -/
theorem is_power_of_two_iff (n : Nat) : is_power_of_two n = true ↔ ∃ k, n = 2 ^ k := by
  induction n using Nat.strong_induction_on with
  | _ n ih =>
    match n with
    | 0 =>
      rw [is_power_of_two]
      constructor
      · intro h
        exact Bool.noConfusion h
      · rintro ⟨k, hk⟩
        have := pow_pos (by omega : (0 : Nat) < 2) k
        omega
    | 1 =>
      rw [is_power_of_two]
      exact iff_of_true rfl ⟨0, rfl⟩
    | (m + 2) =>
      rw [is_power_of_two]
      constructor
      · intro h
        rw [Bool.and_eq_true, decide_eq_true_eq] at h
        obtain ⟨heven, hrec⟩ := h
        obtain ⟨j, hj⟩ := (ih ((m + 2) / 2) (by omega)).mp hrec
        refine ⟨j + 1, ?_⟩
        rw [pow_succ]
        omega
      · rintro ⟨k, hk⟩
        match k with
        | 0 => omega
        | j + 1 =>
          rw [pow_succ] at hk
          rw [Bool.and_eq_true, decide_eq_true_eq]
          have hj : 0 < 2 ^ j := pow_pos (by omega : (0 : Nat) < 2) j
          refine ⟨by omega, (ih ((m + 2) / 2) (by omega)).mpr ⟨j, by omega⟩⟩

/-! ## Claims -/

/-- C3: starting in `AwaitingSnapshot` with an empty replica, buffering
records with sequences 100–107 and then delivering a snapshot with
`last_applied_sequence = 102` discards 100, 101 and 102 as duplicates
(3 drops), applies 103–107 (5 applies), and ends with cursor 107 in the
`Realtime` phase with an empty buffer. -/
theorem c3_snapshot_replay_scenario :
    (on_snapshot ((List.range 8).foldl (fun e i => on_incremental e ⟨100 + i, []⟩)
        MarketDataEngine.new) 102 []).1.book.last_applied_seq = 107 ∧
    (on_snapshot ((List.range 8).foldl (fun e i => on_incremental e ⟨100 + i, []⟩)
        MarketDataEngine.new) 102 []).1.state = State.Realtime ∧
    (on_snapshot ((List.range 8).foldl (fun e i => on_incremental e ⟨100 + i, []⟩)
        MarketDataEngine.new) 102 []).1.buffer = [] ∧
    (on_snapshot ((List.range 8).foldl (fun e i => on_incremental e ⟨100 + i, []⟩)
        MarketDataEngine.new) 102 []).2 = (3, 5) := by
  refine ⟨?_, ?_, ?_, ?_⟩ <;>
    simp [on_snapshot, on_incremental, MarketDataEngine.new, replay_buffer, replay_loop,
      apply_incremental, OrderBook.clear, OrderBook.add, List.range_succ]

/-- C2 (code bug): a true gap inside the drained backlog does NOT leave
the engine in `AwaitingSnapshot`.  With buffered records 103 and 105
and a snapshot at 102, the gap at 105 resets the state inside
`apply_incremental`, but `replay_buffer` then unconditionally stores
`Realtime`, so the cycle ends in `Realtime` at cursor 103 (and no
snapshot request is issued — the call is commented out in the
source). -/
theorem c2_replay_gap_bug :
    (on_snapshot (on_incremental (on_incremental MarketDataEngine.new ⟨103, []⟩)
        ⟨105, []⟩) 102 []).1.state = State.Realtime ∧
    (on_snapshot (on_incremental (on_incremental MarketDataEngine.new ⟨103, []⟩)
        ⟨105, []⟩) 102 []).1.state ≠ State.WaitingForSnapshot ∧
    (on_snapshot (on_incremental (on_incremental MarketDataEngine.new ⟨103, []⟩)
        ⟨105, []⟩) 102 []).1.book.last_applied_seq = 103 ∧
    (on_snapshot (on_incremental (on_incremental MarketDataEngine.new ⟨103, []⟩)
        ⟨105, []⟩) 102 []).1.buffer = [] := by
  refine ⟨?_, ?_, ?_, ?_⟩ <;>
    simp [on_snapshot, on_incremental, MarketDataEngine.new, replay_buffer, replay_loop,
      apply_incremental, OrderBook.clear, OrderBook.add]

/-- C6 (code bug): in `Realtime` at cursor 50, a record with sequence
52 (gap: 51 missing) flips the phase to `WaitingForSnapshot`, clears
the buffered backlog and leaves the book at cursor 50 — but no snapshot
request is issued anywhere (`send_snapshot_request()` is commented out
in the source). -/
theorem c6_live_gap_bug :
    (on_incremental ⟨State.Realtime, [], ⟨50⟩⟩ ⟨52, []⟩).state = State.WaitingForSnapshot ∧
    (on_incremental ⟨State.Realtime, [], ⟨50⟩⟩ ⟨52, []⟩).buffer = [] ∧
    (on_incremental ⟨State.Realtime, [], ⟨50⟩⟩ ⟨52, []⟩).book.last_applied_seq = 50 := by
  decide

/-- C1 (counterexample): a record whose sequence equals the cursor is
NOT a no-op in `Realtime`: at cursor 50, processing sequence 50 changes
the phase from `Realtime` to `WaitingForSnapshot` (the strict
continuity check treats the duplicate as a gap), so the claim that the
phase is left unchanged at every phase is false. -/
theorem c1_duplicate_counterexample :
    (on_incremental ⟨State.Realtime, [⟨51, []⟩], ⟨50⟩⟩ ⟨50, []⟩).state = State.WaitingForSnapshot ∧
    (on_incremental ⟨State.Realtime, [⟨51, []⟩], ⟨50⟩⟩ ⟨50, []⟩).buffer ≠ [⟨51, []⟩] ∧
    State.WaitingForSnapshot ≠ State.Realtime := by
  decide

/-- C1 (amended): a record with `sequence ≤ cursor` never changes the
book (cursor) in any phase; in `WaitingForSnapshot` and `Replaying` it
is appended to the buffer with the phase unchanged; in `Realtime`,
however, it is treated by the strict continuity check as a gap — the
phase resets to `WaitingForSnapshot` and the buffer is cleared. -/
theorem c1_duplicate_amended (e : MarketDataEngine) (msg : IncrementalMsg)
    (h : msg.seq ≤ e.book.last_applied_seq) :
    (on_incremental e msg).book = e.book ∧
    ((e.state = State.WaitingForSnapshot ∨ e.state = State.Replaying) →
      (on_incremental e msg).state = e.state ∧
      (on_incremental e msg).buffer = e.buffer ++ [msg]) ∧
    (e.state = State.Realtime →
      (on_incremental e msg).state = State.WaitingForSnapshot ∧
      (on_incremental e msg).buffer = []) := by
  have hne : msg.seq ≠ e.book.last_applied_seq + 1 := by omega
  cases hs : e.state <;>
    simp [on_incremental, hs, apply_incremental, hne]

/-- C1 (witness): the amended statement at a concrete duplicate in the
`WaitingForSnapshot` phase. -/
theorem c1_duplicate_amended_witness :
    (3 : Nat) ≤ 5 ∧
    ((on_incremental ⟨State.WaitingForSnapshot, [], ⟨5⟩⟩ ⟨3, []⟩).book = ⟨5⟩ ∧
    ((State.WaitingForSnapshot = State.WaitingForSnapshot ∨
        State.WaitingForSnapshot = State.Replaying) →
      (on_incremental ⟨State.WaitingForSnapshot, [], ⟨5⟩⟩ ⟨3, []⟩).state = State.WaitingForSnapshot ∧
      (on_incremental ⟨State.WaitingForSnapshot, [], ⟨5⟩⟩ ⟨3, []⟩).buffer = [] ++ [⟨3, []⟩]) ∧
    (State.WaitingForSnapshot = State.Realtime →
      (on_incremental ⟨State.WaitingForSnapshot, [], ⟨5⟩⟩ ⟨3, []⟩).state = State.WaitingForSnapshot ∧
      (on_incremental ⟨State.WaitingForSnapshot, [], ⟨5⟩⟩ ⟨3, []⟩).buffer = [])) :=
  ⟨by decide, c1_duplicate_amended _ _ (by decide)⟩

/-- C5 (counterexample): a stale snapshot (`last_applied_sequence = 4`)
arriving while the engine is `Realtime` at cursor 10 is NOT ignored:
the cursor is overwritten with 4. -/
theorem c5_stale_snapshot_counterexample :
    (on_snapshot ⟨State.Realtime, [], ⟨10⟩⟩ 4 []).1.book.last_applied_seq = 4 ∧
    (4 : Nat) ≠ 10 := by
  refine ⟨?_, by decide⟩
  simp [on_snapshot, replay_buffer, replay_loop, OrderBook.clear, OrderBook.add]

/-- C5 (amended): `on_snapshot` performs no phase or staleness check —
a `SnapshotBatch` received while in `Replaying` or `Live`, even one
whose `last_applied_sequence` is not newer than the cursor, rebuilds
the book, overwrites the cursor with the snapshot's sequence, replays
the (empty) backlog, and leaves the engine in `Realtime`. -/
theorem c5_stale_snapshot_amended (e : MarketDataEngine) (s : Nat) (orders : List Order)
    (hstate : e.state = State.Realtime ∨ e.state = State.Replaying)
    (hbuf : e.buffer = []) (hstale : s ≤ e.book.last_applied_seq) :
    (on_snapshot e s orders).1.book.last_applied_seq = s ∧
    (on_snapshot e s orders).1.state = State.Realtime ∧
    (on_snapshot e s orders).2 = (0, 0) := by
  simp [on_snapshot, replay_buffer, replay_loop, hbuf, foldl_add_eq, OrderBook.clear]

/-- C5 (witness): the amended statement at the counterexample input. -/
theorem c5_stale_snapshot_amended_witness :
    ((State.Realtime = State.Realtime ∨ State.Realtime = State.Replaying) ∧
      ([] : List IncrementalMsg) = [] ∧ (4 : Nat) ≤ 10) ∧
    ((on_snapshot ⟨State.Realtime, [], ⟨10⟩⟩ 4 []).1.book.last_applied_seq = 4 ∧
      (on_snapshot ⟨State.Realtime, [], ⟨10⟩⟩ 4 []).1.state = State.Realtime ∧
      (on_snapshot ⟨State.Realtime, [], ⟨10⟩⟩ 4 []).2 = (0, 0)) :=
  ⟨⟨Or.inl rfl, rfl, by decide⟩,
    c5_stale_snapshot_amended _ 4 [] (Or.inl rfl) rfl (by decide)⟩

/-- C4: `is_newer` compares by wrapping subtraction in 32 bits.  For
any `expected` and `delta` in range, the wrapping difference of
`expected + delta` (mod 2^32) and `expected` is exactly `delta`;
`delta = 0` is not-newer (in order), `delta` in `[1, 2^31)` is newer
(ahead), `delta` in `[2^31, 2^32)` is not-newer (duplicate/stale); and
`arrived = 0x00000001` against `expected = 0xFFFFFFFE` is a forward
case at distance 3. -/
theorem c4_gap_detector_wraparound (expected delta : Nat)
    (he : expected < u32Mod) (hd : delta < u32Mod) :
    u32_wrapping_sub ((expected + delta) % u32Mod) expected = delta ∧
    (delta = 0 → is_newer ((expected + delta) % u32Mod) expected = false) ∧
    (1 ≤ delta → delta < 2147483648 → is_newer ((expected + delta) % u32Mod) expected = true) ∧
    (2147483648 ≤ delta → is_newer ((expected + delta) % u32Mod) expected = false) ∧
    u32_wrapping_sub 1 4294967294 = 3 ∧ is_newer 1 4294967294 = true := by
  have key : u32_wrapping_sub ((expected + delta) % u32Mod) expected = delta := by
    simp only [u32_wrapping_sub, u32Mod] at *
    omega
  refine ⟨key, ?_, ?_, ?_, by decide, by decide⟩
  · intro h0
    subst h0
    have key0 : u32_wrapping_sub ((expected + 0) % u32Mod) expected = 0 := key
    simp only [Nat.add_zero] at key0
    simp [is_newer, key0]
  · intro h1 h2
    simp only [is_newer, key, Bool.and_eq_true, decide_eq_true_eq]
    omega
  · intro h
    simp only [is_newer, key, Bool.and_eq_false_iff, decide_eq_false_iff_not]
    omega

/-- C4 (witness): the wraparound case `expected = 0xFFFFFFFE`,
`delta = 3`. -/
theorem c4_gap_detector_wraparound_witness :
    ((4294967294 : Nat) < u32Mod ∧ (3 : Nat) < u32Mod) ∧
    (u32_wrapping_sub ((4294967294 + 3) % u32Mod) 4294967294 = 3 ∧
    ((3 : Nat) = 0 → is_newer ((4294967294 + 3) % u32Mod) 4294967294 = false) ∧
    ((1 : Nat) ≤ 3 → (3 : Nat) < 2147483648 →
      is_newer ((4294967294 + 3) % u32Mod) 4294967294 = true) ∧
    ((2147483648 : Nat) ≤ 3 → is_newer ((4294967294 + 3) % u32Mod) 4294967294 = false) ∧
    u32_wrapping_sub 1 4294967294 = 3 ∧ is_newer 1 4294967294 = true) :=
  ⟨⟨by decide, by decide⟩, c4_gap_detector_wraparound 4294967294 3 (by decide) (by decide)⟩

/-- C8: from an even counter, `SeqLock::write` drives the counter to
the odd value `old + 1` before the mutator runs and to the even value
`old + 2` after it returns (a net increase of exactly 2); every state
the write passes through before its final store has an odd counter; and
a reader iteration yields a result exactly when the counter it saw was
even and unchanged across its data read, in which case the result is
the accessor applied to the data it read. -/
theorem c8_seqlock_protocol (T R : Type) (l : SeqLock T) (f : T → T) (g : T → R)
    (heven : l.seq % 2 = 0) :
    (l.write_states f).head? = some ⟨l.seq + 1, l.data⟩ ∧
    (l.seq + 1) % 2 = 1 ∧
    (∀ s ∈ (l.write_states f).dropLast, s.seq % 2 = 1) ∧
    (l.write_states f).getLast? = some (l.write f) ∧
    l.write f = ⟨l.seq + 2, f l.data⟩ ∧
    (l.write f).seq % 2 = 0 ∧
    (l.write f).seq = l.seq + 2 ∧
    (∀ seq1 d seq2, (SeqLock.read_attempt g seq1 d seq2).isSome = true ↔
      (seq1 % 2 = 0 ∧ seq1 = seq2)) ∧
    (∀ seq1 d seq2 r, SeqLock.read_attempt g seq1 d seq2 = some r → r = g d) := by
  refine ⟨rfl, by omega, ?_, rfl, rfl, by simp [SeqLock.write]; omega,
    rfl, ?_, ?_⟩
  · intro s hs
    simp only [SeqLock.write_states, List.dropLast, List.mem_cons,
      List.not_mem_nil, or_false] at hs
    rcases hs with h | h <;> subst h <;> simp <;> omega
  · intro seq1 d seq2
    by_cases h1 : seq1 % 2 = 0 <;> by_cases h2 : seq1 = seq2 <;>
      simp [SeqLock.read_attempt, Nat.and_one_is_mod, h1, h2] <;> omega
  · intro seq1 d seq2 r h
    simp only [SeqLock.read_attempt] at h
    split at h
    · exact Option.noConfusion h
    · split at h
      · injection h with h
        exact h.symm
      · exact Option.noConfusion h

/-- C8 (witness): the protocol at a concrete lock with an even
counter. -/
theorem c8_seqlock_protocol_witness :
    (6 : Nat) % 2 = 0 ∧
    ((SeqLock.write_states ⟨6, 10⟩ (fun x => x + 1)).head? = some ⟨6 + 1, 10⟩ ∧
    ((6 : Nat) + 1) % 2 = 1 ∧
    (∀ s ∈ (SeqLock.write_states ⟨6, 10⟩ (fun x => x + 1)).dropLast, s.seq % 2 = 1) ∧
    (SeqLock.write_states ⟨6, 10⟩ (fun x => x + 1)).getLast? =
      some (SeqLock.write ⟨6, 10⟩ (fun x => x + 1)) ∧
    SeqLock.write ⟨6, 10⟩ (fun x => x + 1) = ⟨6 + 2, (fun x => x + 1) 10⟩ ∧
    (SeqLock.write ⟨6, 10⟩ (fun x => x + 1)).seq % 2 = 0 ∧
    (SeqLock.write ⟨6, 10⟩ (fun x => x + 1)).seq = 6 + 2 ∧
    (∀ seq1 d seq2, (SeqLock.read_attempt (fun x : Nat => x * 2) seq1 d seq2).isSome = true ↔
      (seq1 % 2 = 0 ∧ seq1 = seq2)) ∧
    (∀ seq1 d seq2 r, SeqLock.read_attempt (fun x : Nat => x * 2) seq1 d seq2 = some r →
      r = d * 2)) :=
  ⟨by decide, c8_seqlock_protocol Nat Nat ⟨6, 10⟩ (fun x => x + 1) (fun x => x * 2) (by decide)⟩

/-- C10: `SpscRingBuffer::new` rejects (panics on) every capacity that
is zero or not a power of two, and for every power-of-two capacity
constructs a channel with `head = tail = 0` (zero pending elements) and
`mask = capacity - 1`. -/
theorem c10_ring_new_power_of_two (T : Type) [Inhabited T] (capacity : Nat) :
    (SpscRingBuffer.new T capacity = none ↔ ¬ ∃ k, capacity = 2 ^ k) ∧
    (∀ k, capacity = 2 ^ k →
      ∃ q : SpscRingBuffer T, SpscRingBuffer.new T capacity = some q ∧
        q.head = 0 ∧ q.tail = 0 ∧ q.mask = capacity - 1 ∧ q.capacity = capacity ∧
        q.buffer.length = capacity ∧ q.pendingCount = 0) := by
  constructor
  · constructor
    · intro hnone hex
      have hpos : 0 < capacity := by
        obtain ⟨k, hk⟩ := hex
        have := pow_pos (by omega : (0 : Nat) < 2) k
        omega
      have htwo : is_power_of_two capacity = true := (is_power_of_two_iff capacity).mpr hex
      simp [SpscRingBuffer.new, hpos, htwo] at hnone
    · intro hnex
      have htwo : is_power_of_two capacity = false := by
        rcases h : is_power_of_two capacity with _ | _
        · rfl
        · exact absurd ((is_power_of_two_iff capacity).mp h) hnex
      simp [SpscRingBuffer.new, htwo]
  · intro k hk
    have hpos : 0 < capacity := by
      have := pow_pos (by omega : (0 : Nat) < 2) k
      omega
    have htwo : is_power_of_two capacity = true :=
      (is_power_of_two_iff capacity).mpr ⟨k, hk⟩
    refine ⟨⟨List.replicate capacity default, capacity, capacity - 1, 0, 0⟩,
      ?_, rfl, rfl, rfl, rfl, ?_, ?_⟩
    · simp [SpscRingBuffer.new, hpos, htwo]
    · simp
    · simp [SpscRingBuffer.pendingCount, usize_wrapping_sub, usizeSize]

/-- C10 (witness): capacity 8 is accepted with an empty channel and
mask 7; capacity 6 is rejected. -/
theorem c10_ring_new_power_of_two_witness :
    ((8 : Nat) = 2 ^ 3 ∧
      ∃ q : SpscRingBuffer Nat, SpscRingBuffer.new Nat 8 = some q ∧
        q.head = 0 ∧ q.tail = 0 ∧ q.mask = 8 - 1 ∧ q.capacity = 8 ∧
        q.buffer.length = 8 ∧ q.pendingCount = 0) ∧
    SpscRingBuffer.new Nat 6 = none :=
  ⟨⟨by decide, (c10_ring_new_power_of_two Nat 8).2 3 (by decide)⟩,
    (c10_ring_new_power_of_two Nat 6).1.mpr (by
      rintro ⟨k, hk⟩
      match k with
      | 0 => omega
      | 1 => omega
      | 2 => omega
      | (j + 3) =>
        have : 2 ^ 3 ≤ 2 ^ (j + 3) := Nat.pow_le_pow_right (by omega) (by omega)
        omega)⟩

/-- C9 (code bug): `DoubleBufferedOrderBook::update` applies each
update only to the back copy before swapping; nothing is ever
re-applied to the other copy.  Starting from two empty list-books and
applying updates 1 then 2, the newly visible copy is `[2]` — the
effect of update 1 is missing from it. -/
theorem c9_double_buffer_bug :
    (DoubleBufferedOrderBook.update listBookApply
      (DoubleBufferedOrderBook.update listBookApply ⟨([], []), 0⟩ 1) 2).visible = [2] ∧
    ¬ (1 ∈ (DoubleBufferedOrderBook.update listBookApply
      (DoubleBufferedOrderBook.update listBookApply ⟨([], []), 0⟩ 1) 2).visible) := by
  decide

/-- Index arithmetic of the ring buffer: masking a wrapped cursor with
`capacity - 1` is reduction modulo the power-of-two capacity. -/
theorem slot_index_mod (tailv i k capv : Nat) (hk : k < 64) (hcap : capv = 2 ^ k) :
    usize_wrapping_add tailv i &&& (capv - 1) = (tailv + i) % capv := by
  subst hcap
  have h64 : usizeSize = 2 ^ 64 := by norm_num [usizeSize]
  have hdvd : (2 : Nat) ^ k ∣ usizeSize := by
    rw [h64]
    exact pow_dvd_pow 2 (by omega)
  rw [usize_wrapping_add, Nat.and_pow_two_sub_one_eq_mod]
  exact Nat.mod_mod_of_dvd _ hdvd

/-- C7: `try_push` fails with the distinguishable `Full` error exactly
when the wrapping difference `head - tail` reaches the capacity, and
then hands the value back with the channel unchanged; otherwise it
succeeds, appends the value to the pending elements and advances `head`
by exactly one (the backing store never changes size — no allocation).
`try_pop` returns `none` exactly when `head = tail`; otherwise it
returns the oldest pending element, removes it from the pending list
and advances `tail` by exactly one (FIFO). -/
theorem c7_ring_buffer_fifo (T : Type) [Inhabited T] (q : SpscRingBuffer T) (v : T)
    (hwf : q.wf) :
    (q.capacity ≤ q.pendingCount → q.try_push v = (q, Except.error v)) ∧
    (q.pendingCount < q.capacity →
      (q.try_push v).2 = Except.ok () ∧
      (q.try_push v).1.head = usize_wrapping_add q.head 1 ∧
      (q.try_push v).1.tail = q.tail ∧
      (q.try_push v).1.buffer.length = q.buffer.length ∧
      (q.try_push v).1.pending = q.pending ++ [v]) ∧
    (q.try_pop.2 = none ↔ q.head = q.tail) ∧
    q.try_pop.2 = q.pending.head? ∧
    (q.head = q.tail → q.try_pop.1 = q) ∧
    (q.head ≠ q.tail →
      q.try_pop.1.tail = usize_wrapping_add q.tail 1 ∧
      q.try_pop.1.head = q.head ∧
      q.try_pop.1.buffer = q.buffer ∧
      q.try_pop.1.pending = q.pending.tail) := by
  obtain ⟨⟨k, hk64, hcap⟩, hmask, hlen, hh, ht, hcnt⟩ := hwf
  have hcpos : 0 < q.capacity := by
    rw [hcap]
    exact pow_pos (by omega) k
  have h64 : usizeSize = 2 ^ 64 := by norm_num [usizeSize]
  have hclt : q.capacity < usizeSize := by
    rw [hcap, h64]
    exact Nat.pow_lt_pow_right (by omega) hk64
  simp only [usizeSize] at hh ht hclt
  have hcnt_eq : q.pendingCount = (q.head + (usizeSize - q.tail)) % usizeSize := by
    simp [SpscRingBuffer.pendingCount, usize_wrapping_sub, usizeSize,
      Nat.mod_eq_of_lt hh, Nat.mod_eq_of_lt ht]
  simp only [usizeSize] at hcnt_eq
  have hdvd : q.capacity ∣ usizeSize := by
    rw [hcap, h64]
    exact pow_dvd_pow 2 (by omega)
  have hidx : ∀ i, usize_wrapping_add q.tail i &&& q.mask = (q.tail + i) % q.capacity := by
    intro i
    rw [hmask]
    exact slot_index_mod q.tail i k q.capacity hk64 hcap
  have hheadidx : q.head &&& q.mask = q.head % q.capacity := by
    rw [hmask, hcap, Nat.and_pow_two_sub_one_eq_mod]
  have hmod : q.head % q.capacity = (q.tail + q.pendingCount) % q.capacity := by
    obtain ⟨t, hSt⟩ := hdvd
    have ha : q.head + (usizeSize - q.tail) =
        usizeSize * ((q.head + (usizeSize - q.tail)) / usizeSize) + q.pendingCount := by
      rw [hcnt_eq]
      exact (Nat.div_add_mod _ _).symm
    have ha2 : q.head + usizeSize =
        q.tail + q.pendingCount + usizeSize * ((q.head + (usizeSize - q.tail)) / usizeSize) := by
      omega
    have h1 : (q.head + usizeSize) % q.capacity = q.head % q.capacity := by
      rw [hSt]
      exact Nat.add_mul_mod_self_left q.head q.capacity t
    have h2 : (q.tail + q.pendingCount +
        usizeSize * ((q.head + (usizeSize - q.tail)) / usizeSize)) % q.capacity =
        (q.tail + q.pendingCount) % q.capacity := by
      rw [show usizeSize * ((q.head + (usizeSize - q.tail)) / usizeSize) =
        q.capacity * (t * ((q.head + (usizeSize - q.tail)) / usizeSize)) from by
          rw [hSt]; ring]
      exact Nat.add_mul_mod_self_left _ q.capacity _
    rw [← h1, ha2, h2]
  refine ⟨?_, ?_, ?_, ?_, ?_, ?_⟩
  -- full push
  · intro hge
    have hc : q.capacity ≤ usize_wrapping_sub q.head q.tail := hge
    simp [SpscRingBuffer.try_push, hc]
  -- successful push
  · intro hlt
    have hnotfull : ¬ q.capacity ≤ usize_wrapping_sub q.head q.tail := by
      have hpc : usize_wrapping_sub q.head q.tail = q.pendingCount := rfl
      omega
    have hcnt1 : (q.try_push v).1.pendingCount = q.pendingCount + 1 := by
      have hlt2 : usize_wrapping_sub q.head q.tail < q.capacity := hlt
      simp only [SpscRingBuffer.try_push, if_neg hnotfull]
      simp only [SpscRingBuffer.pendingCount, usize_wrapping_sub, usize_wrapping_add,
        usizeSize] at hlt2 ⊢
      omega
    have hslot1 : ∀ i, i < q.pendingCount → (q.try_push v).1.slot i = q.slot i := by
      intro i hi
      simp only [SpscRingBuffer.slot, SpscRingBuffer.try_push, hnotfull, if_neg,
        not_false_iff]
      rw [hidx i, hheadidx]
      apply getD_set_ne
      rw [hmod]
      intro heq
      have hmeq : q.pendingCount ≡ i [MOD q.capacity] :=
        Nat.ModEq.add_left_cancel' q.tail heq
      have hlt2 : i < q.capacity := by omega
      have := hmeq
      rw [Nat.ModEq] at this
      rw [Nat.mod_eq_of_lt hlt, Nat.mod_eq_of_lt hlt2] at this
      omega
    have hslotnew : (q.try_push v).1.slot q.pendingCount = v := by
      simp only [SpscRingBuffer.slot, SpscRingBuffer.try_push, hnotfull, if_neg,
        not_false_iff]
      rw [hidx, ← hmod, hheadidx]
      exact getD_set_self _ _ _ _ (by rw [hlen]; exact Nat.mod_lt _ hcpos)
    refine ⟨by simp [SpscRingBuffer.try_push, hnotfull],
      by simp [SpscRingBuffer.try_push, hnotfull],
      by simp [SpscRingBuffer.try_push, hnotfull],
      by simp [SpscRingBuffer.try_push, hnotfull],
      ?_⟩
    simp only [SpscRingBuffer.pending, hcnt1]
    rw [List.range_succ, List.map_append]
    congr 1
    · apply List.map_congr_left
      intro i hi
      rw [List.mem_range] at hi
      exact hslot1 i hi
    · simp [hslotnew]
  -- pop none iff empty
  · constructor
    · intro hnone
      by_contra hne
      have : ¬ q.tail = q.head := fun h => hne h.symm
      simp [SpscRingBuffer.try_pop, this] at hnone
    · intro heq
      simp [SpscRingBuffer.try_pop, heq]
  -- pop value is the head of pending
  · by_cases heq : q.head = q.tail
    · have hc0 : q.pendingCount = 0 := by
        simp only [SpscRingBuffer.pendingCount, usize_wrapping_sub, usizeSize]
        omega
      simp [SpscRingBuffer.try_pop, heq, SpscRingBuffer.pending, hc0]
    · have hcne : ¬ q.tail = q.head := fun h => heq h.symm
      have hc0 : q.pendingCount ≠ 0 := by
        simp only [SpscRingBuffer.pendingCount, usize_wrapping_sub, usizeSize]
        omega
      obtain ⟨c2, hc2⟩ : ∃ c2, q.pendingCount = c2 + 1 := ⟨q.pendingCount - 1, by omega⟩
      have hv : q.buffer.getD (q.tail &&& q.mask) default = q.slot 0 := by
        simp [SpscRingBuffer.slot, usize_wrapping_add, usizeSize, Nat.mod_eq_of_lt ht]
      have hpendcons : q.pending =
          q.slot 0 :: (List.range c2).map (fun i => q.slot (i + 1)) := by
        simp only [SpscRingBuffer.pending, hc2, List.range_succ_eq_map, List.map_cons,
          List.map_map]
        rfl
      have hpop2 : q.try_pop.2 = some (q.buffer.getD (q.tail &&& q.mask) default) := by
        simp only [SpscRingBuffer.try_pop, if_neg hcne]
      rw [hpop2, hv, hpendcons]
      rfl
  -- pop on empty leaves the state unchanged
  · intro heq
    simp [SpscRingBuffer.try_pop, heq]
  -- pop on nonempty
  · intro hne
    have hcne : ¬ q.tail = q.head := fun h => hne h.symm
    have hc0 : q.pendingCount ≠ 0 := by
      simp only [SpscRingBuffer.pendingCount, usize_wrapping_sub, usizeSize]
      omega
    obtain ⟨c2, hc2⟩ : ∃ c2, q.pendingCount = c2 + 1 := ⟨q.pendingCount - 1, by omega⟩
    have hcnt2 : (q.try_pop).1.pendingCount = c2 := by
      simp only [SpscRingBuffer.try_pop, if_neg hcne]
      simp only [SpscRingBuffer.pendingCount, usize_wrapping_sub, usize_wrapping_add,
        usizeSize] at hc2 ⊢
      omega
    have hslot2 : ∀ i, (q.try_pop).1.slot i = q.slot (i + 1) := by
      intro i
      have hadd : usize_wrapping_add (usize_wrapping_add q.tail 1) i =
          usize_wrapping_add q.tail (i + 1) := by
        simp only [usize_wrapping_add, usizeSize]
        omega
      simp only [SpscRingBuffer.slot, SpscRingBuffer.try_pop, if_neg hcne, hadd]
    have hpendcons : q.pending =
        q.slot 0 :: (List.range c2).map (fun i => q.slot (i + 1)) := by
      simp only [SpscRingBuffer.pending, hc2, List.range_succ_eq_map, List.map_cons,
        List.map_map]
      rfl
    refine ⟨by simp [SpscRingBuffer.try_pop, hcne],
      by simp [SpscRingBuffer.try_pop, hcne],
      by simp [SpscRingBuffer.try_pop, hcne], ?_⟩
    rw [hpendcons, List.tail_cons]
    simp only [SpscRingBuffer.pending, hcnt2]
    exact List.map_congr_left (fun i _ => hslot2 i)

/-- C7 (witness): the push/pop contract on the concrete four-slot
channel with one pending element. -/
theorem c7_ring_buffer_fifo_witness :
    demoChannel.wf ∧
    ((demoChannel.capacity ≤ demoChannel.pendingCount →
        demoChannel.try_push 99 = (demoChannel, Except.error 99)) ∧
    (demoChannel.pendingCount < demoChannel.capacity →
      (demoChannel.try_push 99).2 = Except.ok () ∧
      (demoChannel.try_push 99).1.head = usize_wrapping_add demoChannel.head 1 ∧
      (demoChannel.try_push 99).1.tail = demoChannel.tail ∧
      (demoChannel.try_push 99).1.buffer.length = demoChannel.buffer.length ∧
      (demoChannel.try_push 99).1.pending = demoChannel.pending ++ [99]) ∧
    (demoChannel.try_pop.2 = none ↔ demoChannel.head = demoChannel.tail) ∧
    demoChannel.try_pop.2 = demoChannel.pending.head? ∧
    (demoChannel.head = demoChannel.tail → demoChannel.try_pop.1 = demoChannel) ∧
    (demoChannel.head ≠ demoChannel.tail →
      demoChannel.try_pop.1.tail = usize_wrapping_add demoChannel.tail 1 ∧
      demoChannel.try_pop.1.head = demoChannel.head ∧
      demoChannel.try_pop.1.buffer = demoChannel.buffer ∧
      demoChannel.try_pop.1.pending = demoChannel.pending.tail)) := by
  have hwf : demoChannel.wf :=
    ⟨⟨2, by omega, rfl⟩, rfl, rfl, by decide, by decide, by decide⟩
  exact ⟨hwf, c7_ring_buffer_fifo Nat demoChannel 99 hwf⟩

end HftBook
